import Mathlib

/-!
Shallow embedding of jni-bind's method-selection engine
(`method_selection.h`): given a method's overload set and a call site's
argument types, select the first viable overload and the first viable
permutation of parameter representations, or report no match.

The C++ source is template metaprogramming over compile-time type lists;
the embedding turns each type-level construct into a value-level one:
overload sets become lists of `Overload`, the compile-time query types
become the inductive `CType`, and the index-sequence folds
(`||`, `&&`, `std::min({...})`) become folds over `List.range`.
-/

namespace jni

/-- `kNoSelection = std::numeric_limits<size_t>::max()`. -/
def kNoSelection : Nat := 2 ^ 64 - 1

/-- The decayed compile-time types that can appear as a supplied argument
type or as a proxied parameter representation. `prim k` stands for any
non-object-reference type (primitives, `std::string`, `std::string_view`,
...), compared by `std::is_same`. `objWrapper3` is an object wrapper
`T<class_v, class_loader_v, jvm_v>` derived from `RefBaseTag<jobject>`;
`objWrapper4` is the variant with an extra `DangerousMoveTag` parameter.
Class values are represented by their `name_`; loaders and JVMs by ids. -/
inductive CType where
  | prim (kind : Nat)
  | objWrapper3 (className : String) (classLoader : Nat) (jvm : Nat)
  | objWrapper4 (className : String) (classLoader : Nat) (jvm : Nat)
      (dangerousMoveTag : Bool)
deriving DecidableEq, Repr, Inhabited

/-- Whether a type `is_base_of RefBaseTag<jobject>`: exactly the object
wrapper shapes. -/
def CType.isObjectRef : CType → Bool
  | .prim _ => false
  | .objWrapper3 _ _ _ => true
  | .objWrapper4 _ _ _ _ => true

/-- The `class_v.name_` of an object wrapper (`""` for non-wrappers,
never consulted for those). -/
def CType.wrapperClassName : CType → String
  | .prim _ => ""
  | .objWrapper3 n _ _ => n
  | .objWrapper4 n _ _ _ => n

/-- A declared parameter: its declared class name (`GetParam().name_`,
meaningful only for object parameters) together with its ordered proxy
set of acceptable concrete representations (`ParamsProxied` for this
position). -/
structure Param where
  name : String
  proxies : List CType
deriving DecidableEq, Repr, Inhabited

/-- An overload: its ordered declared parameter list (`GetParams()`),
each parameter already paired with its proxy set. -/
structure Overload where
  params : List Param
deriving DecidableEq, Repr, Inhabited

/-- `ParamCompare<ParamSelectionT, Query>::val`: the primary template is
`false`; the `std::is_same` partial specialisation gives `true` on exact
type equality; the two object-wrapper partial specialisations (which are
more specialised, hence preferred, when the query is a wrapper and the
selected representation derives from `RefBaseTag<jobject>`) compare the
query's `class_v.name_` against the declared parameter's
`GetParam().name_`. -/
def ParamCompare (paramT : CType) (declaredName : String) (query : CType) :
    Bool :=
  match query with
  | .objWrapper3 cn _ _ =>
      if paramT.isObjectRef then cn == declaredName else query == paramT
  | .objWrapper4 cn _ _ _ =>
      if paramT.isObjectRef then cn == declaredName else query == paramT
  | .prim _ => query == paramT

/-- Product of a list, `1` for the empty list. -/
def prodList (l : List Nat) : Nat := l.foldr (· * ·) 1

/-- Modelled from the spec: the mixed-radix decoding performed by
`metaprogramming/n_bit_sequence.h` (`Increment_t` applied
`permutation_idx` times followed by `GetBit`), a file that is not under
`src/`. Per spec 4.2, decoding index `i` into one digit per parameter
uses each parameter's own proxy-set size as its radix, most significant
digit first, consistent with how the permutation count is composed. -/
def decodeMixed : List Nat → Nat → List Nat
  | [], _ => []
  | r :: rs, i => (i / prodList rs) % r :: decodeMixed rs (i % prodList rs)

/-- Mixed-radix composition, inverse of `decodeMixed`; used to state the
bijection of spec 4.2. -/
def encodeMixed : List Nat → List Nat → Nat
  | [], _ => 0
  | _ :: _, [] => 0
  | _ :: rs, d :: ds => d * prodList rs + encodeMixed rs ds

/-- Validity of a digit vector for a radix vector: same length, and each
digit below its own radix (i.e. each digit names one representation in
that parameter's proxy set). -/
def digitsValid : List Nat → List Nat → Bool
  | [], [] => true
  | r :: rs, d :: ds => decide (d < r) && digitsValid rs ds
  | _, _ => false

/-- The proxy-set sizes of an overload's parameters, in order (the spec's
radix list for this overload). -/
def Overload.proxySetSizes (ov : Overload) : List Nat :=
  ov.params.map fun p => p.proxies.length

/-- `ParamsProxied`: per-parameter proxy sets, except that a
zero-parameter overload is replaced by a single empty set
(`std::tuple<std::tuple<>>`), per the source's `std::conditional_t` at
the `ParamsProxied` definition. Only the sizes are needed downstream. -/
def Overload.paramsProxiedSizes (ov : Overload) : List Nat :=
  if ov.params.isEmpty then [0] else ov.params.map fun p => p.proxies.length

/-- `NBitSequence::max_representable_size_`: the size of the mixed-radix
space over `ParamsProxied` (modelled from the spec as the product of the
set sizes, the metaprogramming header being absent from `src/`). -/
def Overload.maxRepresentableSize (ov : Overload) : Nat :=
  prodList ov.paramsProxiedSizes

/-- `Overload::permutation_count`:
`max_representable_size_ == 0 ? 1 : max_representable_size_`. -/
def Overload.permutation_count (ov : Overload) : Nat :=
  if ov.maxRepresentableSize = 0 then 1 else ov.maxRepresentableSize

/-- `ParamSelection::selection_idx`:
`NBitSelection::GetBit<param_idx>::value_`, the `param_idx`-th digit of
the permutation index decoded over the overload's proxy-set sizes. -/
def selection_idx (ov : Overload) (permutationIdx paramIdx : Nat) : Nat :=
  (decodeMixed ov.paramsProxiedSizes permutationIdx).getD paramIdx 0

/-- `ParamSelection::viable<T>`: `ParamCompare` of the selected
representation (`ParamT`, the `selection_idx`-th member of this
parameter's proxy set) and the declared parameter against the query. -/
def paramViable (ov : Overload) (permutationIdx paramIdx : Nat)
    (query : CType) : Bool :=
  let p := ov.params.getD paramIdx default
  ParamCompare (p.proxies.getD (selection_idx ov permutationIdx paramIdx)
    default) p.name query

/-- `Permutation::PermutationViable<Ts...>`: the fold
`(Param<Is>::viable<Ts> && ...)` over `std::index_sequence_for<Ts...>`,
i.e. one index per supplied argument. -/
def PermutationViable (ov : Overload) (permutationIdx : Nat)
    (args : List CType) : Bool :=
  (List.range args.length).all fun i =>
    paramViable ov permutationIdx i (args.getD i default)

/-- `Permutation::PermutationIdxIfViable<Ts...>`: this permutation's own
index when viable, else `kNoSelection`. -/
def Permutation.PermutationIdxIfViable (ov : Overload)
    (permutationIdx : Nat) (args : List CType) : Nat :=
  if PermutationViable ov permutationIdx args then permutationIdx
  else kNoSelection

/-- `std::min({xs...})` over a non-empty pack of `size_t`: every element
is at most `kNoSelection` (the `size_t` maximum), so folding with
`kNoSelection` computes the pack's minimum, which "defaults to
kNoSelection" (the source's own comment) when no element is a valid
index. For an empty pack this fold is an over-approximation of the
source: `std::min({})` is ill-formed C++ (an empty braced-init-list
fails template deduction), so the value at `[]` is an artifact of the
embedding, not program behaviour. -/
def minList (l : List Nat) : Nat := l.foldr min kNoSelection

/-- `Overload::PermutationIdxIfViable<Ts...>`: `kNoSelection` when the
argument count differs from the parameter count (the arity gate),
otherwise `Helper::first_valid_permutation`, the minimum of
`Permutation::PermutationIdxIfViable` over all `permutation_count`
permutation indices. -/
def Overload.PermutationIdxIfViable (ov : Overload) (args : List CType) :
    Nat :=
  if args.length ≠ ov.params.length then kNoSelection
  else minList ((List.range ov.permutation_count).map fun p =>
    Permutation.PermutationIdxIfViable ov p args)

/-- `Overload::OverloadViable<Ts...>`:
`PermutationIdxIfViable<Ts...>() != kNoSelection`. -/
def Overload.OverloadViable (ov : Overload) (args : List CType) : Bool :=
  ov.PermutationIdxIfViable args != kNoSelection

/-- `Overload::OverloadIdxIfViable<Ts...>`: this overload's own index
when viable, else `kNoSelection`. -/
def Overload.OverloadIdxIfViable (ov : Overload) (overloadIdx : Nat)
    (args : List CType) : Nat :=
  if ov.OverloadViable args then overloadIdx else kNoSelection

/-- `MethodSelection::ArgSetViable<Ts...>` (`Helper::val`): the fold
`(Overload<MethodSelection, Is>::OverloadViable<Ts...>() || ...)` over
`std::make_index_sequence<NumOverloads()>`. -/
def ArgSetViable (overloads : List Overload) (args : List CType) : Bool :=
  (List.range overloads.length).any fun i =>
    (overloads.getD i default).OverloadViable args

/-- `MethodSelection::IdxPair<Ts...>`
(`Helper::overload_permutation_idx_if_valid`): the pair of
`std::min({OverloadIdxIfViable...})` over all overloads and, separately,
`std::min({PermutationIdxIfViable...})` over all overloads. -/
def IdxPair (overloads : List Overload) (args : List CType) : Nat × Nat :=
  (minList ((List.range overloads.length).map fun i =>
      (overloads.getD i default).OverloadIdxIfViable i args),
   minList ((List.range overloads.length).map fun i =>
      (overloads.getD i default).PermutationIdxIfViable args))

/-- Overload set of the end-to-end example of spec section 8: `m(int)`,
whose single parameter's proxy set is `{int}`. -/
def overloadInt : Overload :=
  ⟨[{ name := "", proxies := [CType.prim 0] }]⟩

/-- Overload set of the end-to-end example of spec section 8:
`m(String)`, whose parameter's proxy set is `{OwnedString, StringView}`
with `OwnedString` at proxy index 0 and `StringView` at proxy index 1. -/
def overloadString : Overload :=
  ⟨[{ name := "java/lang/String", proxies := [CType.prim 1, CType.prim 2] }]⟩

/-- First overload of the C1 failing input: one parameter whose proxy
set is `{A, B}` (so that with argument `B` its first viable permutation
index is 1). -/
def overloadAB : Overload :=
  ⟨[{ name := "", proxies := [CType.prim 10, CType.prim 11] }]⟩

/-- Second overload of the C1 failing input: one parameter whose proxy
set is `{B}` (so that with argument `B` its first viable permutation
index is 0). -/
def overloadB : Overload :=
  ⟨[{ name := "", proxies := [CType.prim 11] }]⟩

/-- Overload with proxy-set sizes `{2, 1, 3}`, the permutation-count
example of spec section 8. -/
def overload213 : Overload :=
  ⟨[{ name := "", proxies := [CType.prim 0, CType.prim 1] },
    { name := "", proxies := [CType.prim 2] },
    { name := "", proxies := [CType.prim 3, CType.prim 4, CType.prim 5] }]⟩

/-! Lemmas about `prodList`, `decodeMixed`, `encodeMixed`, `minList`. -/

theorem prodList_cons (r : Nat) (rs : List Nat) :
    prodList (r :: rs) = r * prodList rs := rfl

theorem prodList_pos (l : List Nat) (h : ∀ x ∈ l, 0 < x) :
    0 < prodList l := by
  induction l with
  | nil => simp [prodList]
  | cons a l ih =>
    rw [prodList_cons]
    exact Nat.mul_pos (h a (by simp)) (ih fun x hx => h x (by simp [hx]))

theorem decode_valid (rs : List Nat) :
    ∀ i, i < prodList rs → digitsValid rs (decodeMixed rs i) = true := by
  induction rs with
  | nil => intro i h; rfl
  | cons r rs ih =>
    intro i h
    rw [prodList_cons] at h
    have hP : 0 < prodList rs := by
      rcases Nat.eq_zero_or_pos (prodList rs) with h0 | h0
      · rw [h0, Nat.mul_zero] at h; omega
      · exact h0
    have hr : 0 < r := by
      rcases Nat.eq_zero_or_pos r with h0 | h0
      · rw [h0, Nat.zero_mul] at h; omega
      · exact h0
    have h1 : (i / prodList rs) % r < r := Nat.mod_lt _ hr
    have h2 := ih (i % prodList rs) (Nat.mod_lt _ hP)
    simp [decodeMixed, digitsValid, Bool.and_eq_true, decide_eq_true_eq, h1,
      h2]

theorem encode_decode (rs : List Nat) :
    ∀ i, i < prodList rs → encodeMixed rs (decodeMixed rs i) = i := by
  induction rs with
  | nil =>
    intro i h
    simp [prodList] at h
    simp [decodeMixed, encodeMixed, h]
  | cons r rs ih =>
    intro i h
    rw [prodList_cons] at h
    have hP : 0 < prodList rs := by
      rcases Nat.eq_zero_or_pos (prodList rs) with h0 | h0
      · rw [h0, Nat.mul_zero] at h; omega
      · exact h0
    have hd : i / prodList rs < r := by
      rw [Nat.div_lt_iff_lt_mul hP]
      omega
    simp only [decodeMixed, encodeMixed]
    rw [Nat.mod_eq_of_lt hd, ih _ (Nat.mod_lt _ hP), Nat.mul_comm]
    exact Nat.div_add_mod i (prodList rs)

theorem encode_lt (rs : List Nat) :
    ∀ ds, digitsValid rs ds = true → encodeMixed rs ds < prodList rs := by
  induction rs with
  | nil =>
    intro ds h
    cases ds with
    | nil => simp [encodeMixed, prodList]
    | cons d ds => simp [digitsValid] at h
  | cons r rs ih =>
    intro ds h
    cases ds with
    | nil => simp [digitsValid] at h
    | cons d ds =>
      simp only [digitsValid, Bool.and_eq_true, decide_eq_true_eq] at h
      obtain ⟨hd, hv⟩ := h
      have he := ih ds hv
      have h1 : d * prodList rs + encodeMixed rs ds < (d + 1) * prodList rs := by
        rw [Nat.add_mul, Nat.one_mul]; omega
      have h2 : (d + 1) * prodList rs ≤ r * prodList rs :=
        Nat.mul_le_mul_right _ hd
      rw [prodList_cons]
      exact lt_of_lt_of_le h1 h2

theorem decode_encode (rs : List Nat) :
    ∀ ds, digitsValid rs ds = true → decodeMixed rs (encodeMixed rs ds) = ds := by
  induction rs with
  | nil =>
    intro ds h
    cases ds with
    | nil => rfl
    | cons d ds => simp [digitsValid] at h
  | cons r rs ih =>
    intro ds h
    cases ds with
    | nil => simp [digitsValid] at h
    | cons d ds =>
      simp only [digitsValid, Bool.and_eq_true, decide_eq_true_eq] at h
      obtain ⟨hd, hv⟩ := h
      have he := encode_lt rs ds hv
      have hP : 0 < prodList rs := Nat.lt_of_le_of_lt (Nat.zero_le _) he
      simp only [encodeMixed, decodeMixed]
      have hdiv : (d * prodList rs + encodeMixed rs ds) / prodList rs = d := by
        rw [Nat.add_comm, Nat.add_mul_div_right _ _ hP, Nat.div_eq_of_lt he,
          Nat.zero_add]
      have hmod :
          (d * prodList rs + encodeMixed rs ds) % prodList rs =
            encodeMixed rs ds := by
        rw [Nat.add_comm, Nat.add_mul_mod_self_right, Nat.mod_eq_of_lt he]
      rw [hdiv, hmod, Nat.mod_eq_of_lt hd, ih ds hv]

theorem minList_le_of_mem (l : List Nat) (a : Nat) (h : a ∈ l) :
    minList l ≤ a := by
  induction l with
  | nil => cases h
  | cons b l ih =>
    show min b (minList l) ≤ a
    rcases List.mem_cons.mp h with rfl | h2
    · exact min_le_left _ _
    · exact le_trans (min_le_right _ _) (ih h2)

theorem minList_eq_top (l : List Nat) (h : ∀ a ∈ l, a = kNoSelection) :
    minList l = kNoSelection := by
  induction l with
  | nil => rfl
  | cons b l ih =>
    show min b (minList l) = kNoSelection
    rw [h b (by simp), ih fun a ha => h a (by simp [ha])]
    exact min_self _

theorem minList_mem_or (l : List Nat) :
    minList l = kNoSelection ∨ minList l ∈ l := by
  induction l with
  | nil => left; rfl
  | cons b l ih =>
    have hm : minList (b :: l) = min b (minList l) := rfl
    rcases min_choice b (minList l) with h | h
    · right; rw [hm, h]; simp
    · rcases ih with h2 | h2
      · left; rw [hm, h, h2]
      · right; rw [hm, h]; simp [h2]

/-! Claim theorems. -/

/-- Claim C1 (divergence evidence). On the overload list
`[overloadAB, overloadB]` with the single argument `B`: both overloads
are viable; the lowest viable overload index is 0, and overload 0's own
lowest viable permutation index is 1 (its permutation 0 selects `A` and
is not viable). Yet `IdxPair` pairs the minimum viable-overload index
with the minimum viable-permutation index taken across all overloads'
permutation spaces, and returns `(0, 0)` — a permutation index drawn
from overload 1, not viable within the selected overload 0. -/
theorem c1_idx_pair_divergence :
    IdxPair [overloadAB, overloadB] [CType.prim 11] = (0, 0) ∧
    Overload.PermutationIdxIfViable overloadAB [CType.prim 11] = 1 ∧
    PermutationViable overloadAB 0 [CType.prim 11] = false ∧
    Overload.OverloadViable overloadAB [CType.prim 11] = true ∧
    Overload.OverloadViable overloadB [CType.prim 11] = true := by
  decide

/-- Claim C2. For every overload, mixed-radix decoding over the
parameters' own proxy-set sizes is a bijection between permutation
indices in `[0, count)` and representation combinations: every index
decodes to a valid digit vector (one in-range representation choice per
parameter), decoding is injective on `[0, count)`, and every valid
combination is the decoding of exactly one index. -/
theorem c2_decode_is_bijection (ov : Overload) :
    (∀ i, i < prodList ov.proxySetSizes →
      digitsValid ov.proxySetSizes (decodeMixed ov.proxySetSizes i) = true) ∧
    (∀ i j, i < prodList ov.proxySetSizes → j < prodList ov.proxySetSizes →
      decodeMixed ov.proxySetSizes i = decodeMixed ov.proxySetSizes j →
      i = j) ∧
    (∀ ds, digitsValid ov.proxySetSizes ds = true →
      ∃ i, (i < prodList ov.proxySetSizes ∧
          decodeMixed ov.proxySetSizes i = ds) ∧
        ∀ j, j < prodList ov.proxySetSizes →
          decodeMixed ov.proxySetSizes j = ds → j = i) := by
  refine ⟨decode_valid ov.proxySetSizes, ?_, ?_⟩
  · intro i j hi hj heq
    have h := congrArg (encodeMixed ov.proxySetSizes) heq
    rwa [encode_decode _ i hi, encode_decode _ j hj] at h
  · intro ds hds
    refine ⟨encodeMixed ov.proxySetSizes ds,
      ⟨encode_lt _ ds hds, decode_encode _ ds hds⟩, ?_⟩
    intro j hj hdj
    have h := encode_decode ov.proxySetSizes j hj
    rw [hdj] at h
    exact h.symm

/-- Claim C2 witness: on the overload with proxy-set sizes `{2, 1, 3}`
(6 permutations), index 5 decodes to a valid representation
combination. -/
theorem c2_decode_is_bijection_witness :
    digitsValid overload213.proxySetSizes
      (decodeMixed overload213.proxySetSizes 5) = true :=
  (c2_decode_is_bijection overload213).1 5 (by decide)

/-- Claim C3. For every overload whose parameters all have non-empty
proxy sets (spec 3: proxy sets are non-empty), `permutation_count`
equals the product of the parameters' proxy-set sizes; for an overload
with zero parameters the count is exactly 1. -/
theorem c3_permutation_count_product (ov : Overload)
    (h : ∀ p ∈ ov.params, 0 < p.proxies.length) :
    ov.permutation_count = prodList ov.proxySetSizes ∧
    (ov.params = [] → ov.permutation_count = 1) := by
  cases hE : ov.params with
  | nil =>
    constructor
    · simp [Overload.permutation_count, Overload.maxRepresentableSize,
        Overload.paramsProxiedSizes, Overload.proxySetSizes, hE, prodList]
    · intro _
      simp [Overload.permutation_count, Overload.maxRepresentableSize,
        Overload.paramsProxiedSizes, hE, prodList]
  | cons p ps =>
    have hpos : 0 < prodList ov.proxySetSizes := by
      apply prodList_pos
      intro x hx
      obtain ⟨q, hq, rfl⟩ := List.mem_map.mp hx
      exact h q hq
    have hne : ¬ov.params.isEmpty := by simp [hE]
    constructor
    · rw [Overload.permutation_count, Overload.maxRepresentableSize,
        Overload.paramsProxiedSizes, if_neg hne]
      rw [show (ov.params.map fun p => p.proxies.length) =
        ov.proxySetSizes from rfl]
      rw [if_neg (Nat.pos_iff_ne_zero.mp hpos)]
    · intro hcontra
      cases hcontra

/-- Claim C3 witness: applied to the overload with proxy-set sizes
`{2, 1, 3}`, whose permutation count is the product 6. -/
theorem c3_permutation_count_product_witness :
    overload213.permutation_count = prodList overload213.proxySetSizes :=
  (c3_permutation_count_product overload213 (by decide)).1

/-- Claim C4. For an object-typed chosen representation (one deriving
from `RefBaseTag<jobject>`) whose wrapped class name agrees with the
declared parameter's name (proxy sets are generated from the declared
parameter, so they always agree), and for any supplied object-wrapper
type: the matcher reports a match iff the supplied type's declared class
name equals the representation's declared class name, and any two
supplied wrappers with the same class name — whatever their
ownership-wrapper shape — produce the same result. -/
theorem c4_object_match_by_name (rep : CType) (declaredName : String)
    (q : CType) (hrep : rep.isObjectRef = true)
    (hwf : rep.wrapperClassName = declaredName)
    (hq : q.isObjectRef = true) :
    (ParamCompare rep declaredName q = true ↔
      q.wrapperClassName = rep.wrapperClassName) ∧
    (∀ q2 : CType, q2.isObjectRef = true →
      q2.wrapperClassName = q.wrapperClassName →
      ParamCompare rep declaredName q2 = ParamCompare rep declaredName q) := by
  constructor
  · cases q with
    | prim k => simp [CType.isObjectRef] at hq
    | objWrapper3 cn l j =>
      rw [hwf]
      simp [ParamCompare, hrep, CType.wrapperClassName]
    | objWrapper4 cn l j t =>
      rw [hwf]
      simp [ParamCompare, hrep, CType.wrapperClassName]
  · intro q2 h2 hname
    cases q2 <;> cases q <;>
      simp_all [ParamCompare, CType.isObjectRef, CType.wrapperClassName]

/-- Claim C4 witness: a parameter representation wrapping class `"Foo"`
matches a supplied wrapper of the other ownership shape wrapping
`"Foo"`. -/
theorem c4_object_match_by_name_witness :
    ParamCompare (CType.objWrapper3 "Foo" 0 0) "Foo"
      (CType.objWrapper4 "Foo" 5 7 true) = true :=
  ((c4_object_match_by_name (CType.objWrapper3 "Foo" 0 0) "Foo"
      (CType.objWrapper4 "Foo" 5 7 true) (by decide) (by decide)
      (by decide)).1).mpr (by decide)

/-- Claim C5. For every overload and every argument list whose length
differs from the overload's parameter count,
`Overload::PermutationIdxIfViable` returns `kNoSelection`, regardless of
the argument types' content. -/
theorem c5_arity_gate (ov : Overload) (args : List CType)
    (h : args.length ≠ ov.params.length) :
    ov.PermutationIdxIfViable args = kNoSelection := by
  rw [Overload.PermutationIdxIfViable, if_pos h]

/-- Claim C5 witness: the one-parameter overload `m(int)` with an empty
argument list. -/
theorem c5_arity_gate_witness :
    overloadInt.PermutationIdxIfViable [] = kNoSelection :=
  c5_arity_gate overloadInt [] (by decide)

/-- Claim C6. For every permutation of every overload and every
argument list of matching length, the permutation is viable iff all of
its parameters match their corresponding supplied argument types (the
fold `(Param<Is>::viable<Ts> && ...)`). -/
theorem c6_permutation_viable_iff_all (ov : Overload)
    (permutationIdx : Nat) (args : List CType)
    (h : args.length = ov.params.length) :
    PermutationViable ov permutationIdx args = true ↔
      ∀ i, i < ov.params.length →
        paramViable ov permutationIdx i (args.getD i default) = true := by
  rw [PermutationViable, List.all_eq_true]
  constructor
  · intro ha i hi
    exact ha i (List.mem_range.mpr (by omega))
  · intro ha i hi
    exact ha i (by have := List.mem_range.mp hi; omega)

/-- Claim C6 witness: permutation 1 of the `m(String)` overload is
viable for the argument `StringView`, hence every one of its parameters
matches. -/
theorem c6_permutation_viable_iff_all_witness :
    PermutationViable overloadString 1 [CType.prim 2] = true :=
  (c6_permutation_viable_iff_all overloadString 1 [CType.prim 2]
    (by decide)).mpr (by decide)

/-- Claim C7 (the part the code realises). For every argument type
list, the viability test against an empty overload list is false — the
empty `||` fold in `Helper::val` compiles and yields `false`, so no
overload is ever selected when none is declared. The claim's
sentinel-pair part is not realised by the code: instantiating
`Helper::overload_permutation_idx_if_valid` (hence `IdxPair`) with zero
overloads expands `std::min({})` over an empty braced-init-list, which
fails template deduction — ill-formed, so `IdxPair` never returns the
no-match sentinel pair there, while spec sections 7 and 8 require
`Resolve([], anyArgs)` to return `NoMatch` as a normal value. -/
theorem c7_empty_overloads_not_viable (args : List CType) :
    ArgSetViable [] args = false :=
  rfl

/-- Claim C8. End-to-end: with overloads `[m(int), m(String)]` where
`String`'s proxy set is `{OwnedString, StringView}` (proxy indices 0 and
1), resolving with the single argument `StringView` returns `(1, 1)`,
and resolving with `[int, int]` returns the no-match sentinel pair. -/
theorem c8_end_to_end :
    IdxPair [overloadInt, overloadString] [CType.prim 2] = (1, 1) ∧
    IdxPair [overloadInt, overloadString] [CType.prim 0, CType.prim 0] =
      (kNoSelection, kNoSelection) := by
  decide

/-- Claim C9. The match result for a supplied object wrapper depends
only on the wrapper's class argument's name: two supplied wrappers of
the same shape instantiated with the same class but arbitrary
class-loader and JVM arguments (and arbitrary dangerous-move tag)
produce the same match result against any representation and declared
name. -/
theorem c9_loader_jvm_never_consulted (rep : CType)
    (declaredName className : String) (l1 j1 l2 j2 : Nat) (t1 t2 : Bool) :
    ParamCompare rep declaredName (CType.objWrapper3 className l1 j1) =
      ParamCompare rep declaredName (CType.objWrapper3 className l2 j2) ∧
    ParamCompare rep declaredName (CType.objWrapper4 className l1 j1 t1) =
      ParamCompare rep declaredName (CType.objWrapper4 className l2 j2 t2) := by
  cases rep <;> simp [ParamCompare, CType.isObjectRef]

/-- Claim C9 witness: wrappers of class `"Foo"` under different loader
and JVM ids match a `"Foo"` representation identically. -/
theorem c9_loader_jvm_never_consulted_witness :
    ParamCompare (CType.objWrapper3 "Foo" 0 0) "Foo"
        (CType.objWrapper3 "Foo" 1 2) =
      ParamCompare (CType.objWrapper3 "Foo" 0 0) "Foo"
        (CType.objWrapper3 "Foo" 3 4) :=
  (c9_loader_jvm_never_consulted (CType.objWrapper3 "Foo" 0 0) "Foo" "Foo"
    1 2 3 4 false false).1

/-- Claim C10. For every overload set (of `size_t`-representable length)
and argument list: `ArgSetViable` is true iff the first component of
`IdxPair` differs from `kNoSelection`, and when no overload is viable
the returned pair is exactly `(kNoSelection, kNoSelection)`. -/
theorem c10_viable_iff_idx_pair (overloads : List Overload)
    (args : List CType) (h : overloads.length ≤ kNoSelection) :
    (ArgSetViable overloads args = true ↔
      (IdxPair overloads args).1 ≠ kNoSelection) ∧
    (ArgSetViable overloads args = false →
      IdxPair overloads args = (kNoSelection, kNoSelection)) := by
  have hfst : (IdxPair overloads args).1 =
      minList ((List.range overloads.length).map fun i =>
        (overloads.getD i default).OverloadIdxIfViable i args) := rfl
  have hsnd : (IdxPair overloads args).2 =
      minList ((List.range overloads.length).map fun i =>
        (overloads.getD i default).PermutationIdxIfViable args) := rfl
  constructor
  · constructor
    · intro hv
      obtain ⟨i, hmem, hvi⟩ := List.any_eq_true.mp hv
      have hi : i < overloads.length := List.mem_range.mp hmem
      have hfi : (overloads.getD i default).OverloadIdxIfViable i args = i := by
        rw [Overload.OverloadIdxIfViable, if_pos hvi]
      have hmm : (overloads.getD i default).OverloadIdxIfViable i args ∈
          (List.range overloads.length).map fun i =>
            (overloads.getD i default).OverloadIdxIfViable i args :=
        List.mem_map_of_mem _ hmem
      have hle : (IdxPair overloads args).1 ≤ i := by
        rw [hfst, ← hfi]
        exact minList_le_of_mem _ _ hmm
      have hik : i < kNoSelection := lt_of_lt_of_le hi h
      intro heq
      rw [heq] at hle
      omega
    · intro hne
      rw [hfst] at hne
      rcases minList_mem_or ((List.range overloads.length).map fun i =>
          (overloads.getD i default).OverloadIdxIfViable i args) with
        heq | hmem
      · exact absurd heq hne
      · obtain ⟨i, hmem2, hfi⟩ := List.mem_map.mp hmem
        by_cases hv : (overloads.getD i default).OverloadViable args = true
        · exact List.any_eq_true.mpr ⟨i, hmem2, hv⟩
        · exfalso
          rw [Bool.not_eq_true] at hv
          rw [Overload.OverloadIdxIfViable, hv] at hfi
          simp only [Bool.false_eq_true, if_false] at hfi
          exact hne hfi.symm
  · intro hfalse
    have hall : ∀ i ∈ List.range overloads.length,
        (overloads.getD i default).OverloadViable args = false := by
      intro i hi
      cases hb : (overloads.getD i default).OverloadViable args with
      | false => rfl
      | true =>
        have h1 : ArgSetViable overloads args = true :=
          List.any_eq_true.mpr ⟨i, hi, hb⟩
        rw [hfalse] at h1
        exact Bool.noConfusion h1
    have hA : minList ((List.range overloads.length).map fun i =>
        (overloads.getD i default).OverloadIdxIfViable i args) =
          kNoSelection := by
      apply minList_eq_top
      intro a ha
      obtain ⟨i, hi, rfl⟩ := List.mem_map.mp ha
      rw [Overload.OverloadIdxIfViable, hall i hi]
      simp
    have hB : minList ((List.range overloads.length).map fun i =>
        (overloads.getD i default).PermutationIdxIfViable args) =
          kNoSelection := by
      apply minList_eq_top
      intro a ha
      obtain ⟨i, hi, rfl⟩ := List.mem_map.mp ha
      have hv := hall i hi
      rw [Overload.OverloadViable, bne_eq_false_iff_eq] at hv
      exact hv
    refine Prod.ext ?_ ?_
    · rw [hfst]; exact hA
    · rw [hsnd]; exact hB

/-- Claim C10 witness: the single-overload set `[m(int)]` with the
matching argument `int` is viable, and its `IdxPair` first component is
not the sentinel. -/
theorem c10_viable_iff_idx_pair_witness :
    ArgSetViable [overloadInt] [CType.prim 0] = true ↔
      (IdxPair [overloadInt] [CType.prim 0]).1 ≠ kNoSelection :=
  (c10_viable_iff_idx_pair [overloadInt] [CType.prim 0] (by decide)).1

end jni
